import Mathlib

/-!
Verification of the chess rules engine (board state, legality, check,
castling, FEN seeding) by a shallow embedding of the Rust sources.
The embedding follows `src/chess_board.rs`, `src/castling_rights.rs`,
`src/fen.rs` and the piece variant modules; Rust panics are modelled
by `Option` with `none` as the fatal outcome.
-/

namespace Chess

/-- Piece colors, from the `PieceColor` enum. -/
inductive PieceColor where
  | White
  | Black
deriving DecidableEq, Repr

/-- The color of the other player, from `PieceColor::opposite`. -/
def PieceColor.opposite : PieceColor → PieceColor
  | .White => .Black
  | .Black => .White

/-- Piece kinds, from the `PieceType` enum. -/
inductive PieceType where
  | King
  | Queen
  | Bishop
  | Knight
  | Rook
  | Pawn
deriving DecidableEq, Repr

/-- Game termination states, from the `GameEndStatus` enum. -/
inductive GameEndStatus where
  | Checkmate
  | Resignation
  | Stalemate
  | DeadPosition
  | FlagFall
deriving DecidableEq, Repr

/-- A square of the 8 by 8 grid, from `BoardPosition`.  The Rust
constructor panics when a coordinate is 8 or more; places where an
out-of-range construction can occur are modelled with explicit range
checks. -/
structure BoardPosition where
  rank : Nat
  file : Nat
deriving DecidableEq, Repr

/-- The `usize::abs_diff` operation used by the sources. -/
def absDiff (a b : Nat) : Nat := ((a : Int) - (b : Int)).natAbs

/-- The `i32::clamp` operation used by the sources. -/
def intClamp (x lo hi : Int) : Int := min (max x lo) hi

/-- A piece: its variant, color, current and starting squares and the
moved latch, merging the per-variant structs of the piece modules. -/
structure Piece where
  color : PieceColor
  ptype : PieceType
  starting_position : BoardPosition
  position : BoardPosition
  moved : Bool
deriving DecidableEq, Repr

/-- Piece construction from `new_piece`: the current and starting
squares coincide and the moved latch starts cleared. -/
def newPiece (color : PieceColor) (ptype : PieceType) (pos : BoardPosition) : Piece :=
  { color := color, ptype := ptype, starting_position := pos, position := pos, moved := false }

/-- A single ply, from the `Move` struct. -/
structure Move where
  from_pos : BoardPosition
  to_pos : BoardPosition
  piece_type : PieceType
  piece_color : PieceColor
  is_capture : Bool
  is_castle : Bool
deriving DecidableEq, Repr

/-- Castling rights, from `CastlingRights`: per color, index 0 of the
Rust array is the kingside flag and index 1 the queenside flag. -/
structure CastlingRights where
  white : Bool × Bool
  black : Bool × Bool
deriving DecidableEq, Repr

/-- `CastlingRights::from_fen_string`: simple containment of the four
letters. -/
def CastlingRights.fromFenChars (cs : List Char) : CastlingRights :=
  { white := (cs.contains 'K', cs.contains 'Q'),
    black := (cs.contains 'k', cs.contains 'q') }

/-- `CastlingRights::valid_castle_direction`: kingside for a positive
file delta, queenside for a negative one. -/
def CastlingRights.validCastleDirection (cr : CastlingRights) (color : PieceColor)
    (direction : Int) : Bool :=
  let rights := match color with
    | .White => cr.white
    | .Black => cr.black
  if direction.sign = 1 then rights.1
  else if direction.sign = -1 then rights.2
  else false

/-- The mutation of one color's rights pair performed by
`CastlingRights::update_after_move` through the `rights` reference. -/
def updateRightsPair (rights : Bool × Bool) (piece_move : Move) : Bool × Bool :=
  if piece_move.piece_type = PieceType.King then (false, false)
  else if piece_move.piece_type = PieceType.Rook then
    if piece_move.from_pos.file = 0 then (rights.1, false)
    else if piece_move.from_pos.file = 7 then (false, rights.2)
    else rights
  else rights

/-- `CastlingRights::update_after_move`. -/
def CastlingRights.updateAfterMove (cr : CastlingRights) (piece_move : Move) : CastlingRights :=
  match piece_move.piece_color with
  | .White => { cr with white := updateRightsPair cr.white piece_move }
  | .Black => { cr with black := updateRightsPair cr.black piece_move }

/-- The pawn's forward direction, from `Pawn::move_direction`. -/
def pawnDirection : PieceColor → Int
  | .White => -1
  | .Black => 1

/-- Clamp an `i32` coordinate into the board range, as the pawn
generator does with `.clamp(0, 7)`. -/
def clamp07 (x : Int) : Nat := (intClamp x 0 7).toNat

/-- `King::get_moves`: the eight adjacent squares scanned rank-major,
then the castle destinations when the king still stands on its
starting square (the `include_captures` flag is ignored). -/
def kingMoves (p : Piece) : List BoardPosition :=
  ((List.range 8).flatMap fun rank =>
    (List.range 8).filterMap fun file =>
      if (rank = p.position.rank ∧ absDiff p.position.file file = 1)
          ∨ (file = p.position.file ∧ absDiff p.position.rank rank = 1)
          ∨ (absDiff p.position.file file = 1 ∧ absDiff p.position.rank rank = 1)
      then some ⟨rank, file⟩ else none)
  ++ (if p.position = p.starting_position then
        (if p.position.file < 6 then [⟨p.position.rank, p.position.file + 2⟩] else [])
        ++ (if p.position.file > 2 then [⟨p.position.rank, p.position.file - 2⟩] else [])
      else [])

/-- `Knight::get_moves`: the L-shaped offsets, scanned rank-major. -/
def knightMoves (p : Piece) : List BoardPosition :=
  (List.range 8).flatMap fun rank =>
    (List.range 8).filterMap fun file =>
      let rank_diff : Int := (Int.ofNat rank) - (p.position.rank : Int)
      let file_diff : Int := (Int.ofNat file) - (p.position.file : Int)
      if ((rank_diff = 1 ∨ rank_diff = -1) ∧ (file_diff = 2 ∨ file_diff = -2))
          ∨ ((file_diff = 1 ∨ file_diff = -1) ∧ (rank_diff = 2 ∨ rank_diff = -2))
      then some ⟨rank, file⟩ else none

/-- `Rook::get_moves`: every other square sharing the rank or file. -/
def rookMoves (p : Piece) : List BoardPosition :=
  (List.range 8).flatMap fun rank =>
    (List.range 8).filterMap fun file =>
      if (rank = p.position.rank ∨ file = p.position.file)
          ∧ (rank ≠ p.position.rank ∨ file ≠ p.position.file)
      then some ⟨rank, file⟩ else none

/-- `Bishop::get_moves`: every other square on a shared diagonal. -/
def bishopMoves (p : Piece) : List BoardPosition :=
  (List.range 8).flatMap fun rank =>
    (List.range 8).filterMap fun file =>
      let rank_diff : Int := (Int.ofNat rank) - (p.position.rank : Int)
      let file_diff : Int := (Int.ofNat file) - (p.position.file : Int)
      if (rank_diff = file_diff ∨ rank_diff = -file_diff) ∧ rank ≠ p.position.rank
      then some ⟨rank, file⟩ else none

/-- `Queen::get_moves`: the union of rook and bishop geometry. -/
def queenMoves (p : Piece) : List BoardPosition :=
  (List.range 8).flatMap fun rank =>
    (List.range 8).filterMap fun file =>
      let rank_diff : Int := (Int.ofNat rank) - (p.position.rank : Int)
      let file_diff : Int := (Int.ofNat file) - (p.position.file : Int)
      if (rank_diff = file_diff ∨ rank_diff = -file_diff
            ∨ rank = p.position.rank ∨ file = p.position.file)
          ∧ (rank ≠ p.position.rank ∨ file ≠ p.position.file)
      then some ⟨rank, file⟩ else none

/-- `Pawn::get_moves`: one step forward, the double step from the
starting rank, and when `include_captures` the two clamped diagonal
squares. -/
def pawnMoves (p : Piece) (include_captures : Bool) : List BoardPosition :=
  let dir := pawnDirection p.color
  [⟨clamp07 ((p.position.rank : Int) + dir), p.position.file⟩]
  ++ (if (p.color = PieceColor.White ∧ p.position.rank = 6)
        ∨ (p.color = PieceColor.Black ∧ p.position.rank = 1) then
        [⟨clamp07 ((p.position.rank : Int) + 2 * dir), p.position.file⟩]
      else [])
  ++ (if include_captures then
        [⟨clamp07 ((p.position.rank : Int) + dir), clamp07 ((p.position.file : Int) + 1)⟩,
         ⟨clamp07 ((p.position.rank : Int) + dir), clamp07 ((p.position.file : Int) - 1)⟩]
      else [])

/-- Dispatch of `get_moves` over the piece variants. -/
def pieceGetMoves (p : Piece) (include_captures : Bool) : List BoardPosition :=
  match p.ptype with
  | .King => kingMoves p
  | .Queen => queenMoves p
  | .Bishop => bishopMoves p
  | .Knight => knightMoves p
  | .Rook => rookMoves p
  | .Pawn => pawnMoves p include_captures

/-- Each variant's `valid_move`: membership of the destination in
`get_moves(false)`. -/
def pieceValidMove (p : Piece) (end_position : BoardPosition) : Bool :=
  (pieceGetMoves p false).contains end_position

/-- Each variant's `valid_capture`: the pawn uses its explicit
one-step-diagonal rule, every other variant reuses `valid_move`. -/
def pieceValidCapture (p : Piece) (end_position : BoardPosition) : Bool :=
  match p.ptype with
  | .Pawn =>
    let dir := pawnDirection p.color
    decide (0 ≤ (p.position.rank : Int) + dir
      ∧ (p.position.rank : Int) + dir < 8
      ∧ (p.position.rank : Int) + dir = (end_position.rank : Int)
      ∧ ((p.position.file > 0 ∧ end_position.file = p.position.file - 1)
        ∨ (p.position.file < 7 ∧ end_position.file = p.position.file + 1)))
  | _ => pieceValidMove p end_position

/-- `is_sliding`: false only for the knight. -/
def pieceIsSliding (p : Piece) : Bool :=
  match p.ptype with
  | .Knight => false
  | _ => true

/-- The board state, from the `ChessBoard` struct; the grid is a list
of eight ranks of eight optional pieces. -/
structure Board where
  grid : List (List (Option Piece))
  active_color : Option PieceColor
  past_moves : List Move
  move_number : Int
  castling_rights : CastlingRights
  winner : Option PieceColor
  game_end_status : Option GameEndStatus
deriving DecidableEq, Repr

/-- One empty rank. -/
def emptyRank : List (Option Piece) :=
  [none, none, none, none, none, none, none, none]

/-- `ChessBoard::empty_board`. -/
def emptyBoard : Board :=
  { grid := [emptyRank, emptyRank, emptyRank, emptyRank,
             emptyRank, emptyRank, emptyRank, emptyRank],
    active_color := none,
    past_moves := [],
    move_number := 1,
    castling_rights := { white := (false, false), black := (false, false) },
    winner := none,
    game_end_status := none }

/-- Reading a grid cell, as `self.board[rank][file]`. -/
def pieceAt (b : Board) (pos : BoardPosition) : Option Piece :=
  (b.grid.getD pos.rank []).getD pos.file none

/-- Writing a grid cell. -/
def setAt (g : List (List (Option Piece))) (pos : BoardPosition) (v : Option Piece) :
    List (List (Option Piece)) :=
  g.set pos.rank ((g.getD pos.rank []).set pos.file v)

/-- `ChessBoard::get_piece_type`. -/
def getPieceType (b : Board) (pos : BoardPosition) : Option PieceType :=
  (pieceAt b pos).map Piece.ptype

/-- `ChessBoard::get_piece_color`. -/
def getPieceColor (b : Board) (pos : BoardPosition) : Option PieceColor :=
  (pieceAt b pos).map Piece.color

/-- `ChessBoard::move_piece`: `none` models the fatal
"No piece at start location." panic on an empty source.  Otherwise the
piece is repositioned (latching its moved flag), copied over the
destination cell and the source cell is cleared, in that order. -/
def movePiece (b : Board) (from_pos to_pos : BoardPosition) : Option Board :=
  match pieceAt b from_pos with
  | none => none
  | some p =>
    let moved_piece := { p with position := to_pos, moved := true }
    let g1 := setAt b.grid to_pos (some moved_piece)
    let g2 := setAt g1 from_pos none
    some { b with grid := g2 }

/-- The walk of `ChessBoard::no_piece_between_squares`, with fuel for
termination; the fuel is never exhausted on the straight and diagonal
rays the callers produce. -/
def noPieceBetweenAux (b : Board) (endRank endFile : Nat) (stepR stepF : Int) :
    Nat → Int → Int → Bool
  | 0, _, _ => false
  | fuel + 1, r, f =>
    if r = (endRank : Int) ∧ f = (endFile : Int) then true
    else if (pieceAt b ⟨r.toNat, f.toNat⟩).isSome then false
    else noPieceBetweenAux b endRank endFile stepR stepF fuel (r + stepR) (f + stepF)

/-- `ChessBoard::no_piece_between_squares`: steps by the sign of each
coordinate delta and fails on the first occupied square strictly
between the two endpoints. -/
def noPieceBetweenSquares (b : Board) (start_pos end_pos : BoardPosition) : Bool :=
  let stepR := ((end_pos.rank : Int) - (start_pos.rank : Int)).sign
  let stepF := ((end_pos.file : Int) - (start_pos.file : Int)).sign
  noPieceBetweenAux b end_pos.rank end_pos.file stepR stepF 16
    ((start_pos.rank : Int) + stepR) ((start_pos.file : Int) + stepF)

/-- `Move::from_board` for a square whose occupant is already at hand:
the piece data is read off the prior board, the capture flag is
destination occupancy and the castle flag marks a king moving two
files. -/
def mkMoveFromBoard (b : Board) (from_pos to_pos : BoardPosition) (piece : Piece) : Move :=
  { from_pos := from_pos,
    to_pos := to_pos,
    piece_type := piece.ptype,
    piece_color := piece.color,
    is_capture := (getPieceType b to_pos).isSome,
    is_castle := piece.ptype = PieceType.King ∧ absDiff from_pos.file to_pos.file = 2 }

/-- Steps 1 to 5 of `ChessBoard::valid_move`: the clauses that do not
depend on `check_for_check`. -/
def validMoveCore (b : Board) (piece_move : Move) (active_color : Option PieceColor) : Bool :=
  if piece_move.is_castle ∧ piece_move.is_capture then false
  else match pieceAt b piece_move.from_pos with
  | none => false
  | some piece =>
    (match active_color with
     | none => false
     | some c => piece.color = c)
    && (match getPieceColor b piece_move.to_pos with
        | some color =>
          if color = piece.color then false
          else pieceValidCapture piece piece_move.to_pos
        | none => pieceValidMove piece piece_move.to_pos)
    && (!pieceIsSliding piece || noPieceBetweenSquares b piece_move.from_pos piece_move.to_pos)

/-- All candidate plies on the board, in the rank-major scan order of
`ChessBoard::get_valid_moves`: each occupied square contributes its
occupant's `get_moves(true)` destinations. -/
def candidateMoves (b : Board) : List Move :=
  (List.range 8).flatMap fun rank =>
    (List.range 8).flatMap fun file =>
      match pieceAt b ⟨rank, file⟩ with
      | none => []
      | some piece =>
        (pieceGetMoves piece true).map fun to_pos =>
          mkMoveFromBoard b ⟨rank, file⟩ to_pos piece

/-- `ChessBoard::get_valid_moves` specialised to
`check_for_check = false`, where `valid_move` reduces to its first
five clauses; this breaks the mutual recursion with `in_check` exactly
as the source's rationale describes. -/
def getValidMovesNC (b : Board) (active_color : Option PieceColor) : List Move :=
  (candidateMoves b).filter fun piece_move => validMoveCore b piece_move active_color

/-- The squares of the board in rank-major scan order. -/
def allSquares : List BoardPosition :=
  (List.range 8).flatMap fun rank =>
    (List.range 8).map fun file => ⟨rank, file⟩

/-- The per-square test of the king scan inside `ChessBoard::in_check`. -/
def kingPred (b : Board) (color : PieceColor) (pos : BoardPosition) : Bool :=
  match pieceAt b pos with
  | some piece => piece.ptype = PieceType.King ∧ piece.color = color
  | none => false

/-- The king scan of `ChessBoard::in_check`: the first matching square
in rank-major order, defaulting to rank 0, file 0 when no king of the
color exists. -/
def kingLocation (b : Board) (color : PieceColor) : BoardPosition :=
  (allSquares.find? (kingPred b color)).getD ⟨0, 0⟩

/-- `ChessBoard::in_check`: some opponent move generated with
`check_for_check = false` lands on the king's square. -/
def inCheck (b : Board) (color : PieceColor) : Bool :=
  let king_location := kingLocation b color
  (getValidMovesNC b (some color.opposite)).any fun piece_move =>
    piece_move.to_pos = king_location

/-- Step 6 of `ChessBoard::valid_move`: apply the move to a cloned
board and require the mover not to be in check there.  The `none`
branch is unreachable because the source square was already checked to
be occupied. -/
def simulationOk (b : Board) (piece_move : Move) (c : PieceColor) : Bool :=
  match movePiece b piece_move.from_pos piece_move.to_pos with
  | some test_board => !inCheck test_board c
  | none => false

/-- Step 7 of `ChessBoard::valid_move`: the additional castle clauses.
The emptiness walk runs from the king's square to the square at file
`clamp(from.file + direction * 8, 1, 7)`, never to file 0. -/
def castleOk (b : Board) (piece_move : Move) (c : PieceColor) : Bool :=
  let file_move_direction : Int :=
    (piece_move.to_pos.file : Int) - (piece_move.from_pos.file : Int)
  b.castling_rights.validCastleDirection c file_move_direction
  && noPieceBetweenSquares b piece_move.from_pos
      ⟨piece_move.from_pos.rank,
       (intClamp ((piece_move.from_pos.file : Int) + file_move_direction * 8) 1 7).toNat⟩
  && !inCheck b c
  && simulationOk b piece_move c

/-- `ChessBoard::valid_move` in full.  The trailing clauses only fire
under `check_for_check`, and only with an active color, matching the
source's short-circuit through `active_color.unwrap()`. -/
def validMove (b : Board) (piece_move : Move) (active_color : Option PieceColor)
    (check_for_check : Bool) : Bool :=
  validMoveCore b piece_move active_color
  && (match active_color with
      | none => true
      | some c =>
        (!check_for_check || simulationOk b piece_move c)
        && (!check_for_check || !piece_move.is_castle || castleOk b piece_move c))

/-- `ChessBoard::get_valid_moves`. -/
def getValidMoves (b : Board) (active_color : Option PieceColor)
    (check_for_check : Bool) : List Move :=
  (candidateMoves b).filter fun piece_move =>
    validMove b piece_move active_color check_for_check

/-- The body of the `make_move` system for one requested move: an
invalid request leaves the board untouched and emits nothing; a valid
one moves the piece, relocates the rook of a castle (reading its
source square from the same clamped-file formula as the castle
emptiness check), flips the active color, records the move, bumps the
move number when White is next and updates the castling rights.
`none` models a panic inside `move_piece` or `BoardPosition::new`. -/
def makeMove (b : Board) (piece_move : Move) : Option (Board × List (BoardPosition × BoardPosition)) :=
  if validMove b piece_move b.active_color true then
    match movePiece b piece_move.from_pos piece_move.to_pos with
    | none => none
    | some b1 =>
      let after_castle : Option (Board × List (BoardPosition × BoardPosition)) :=
        if piece_move.is_castle then
          let file_move_direction : Int :=
            (piece_move.to_pos.file : Int) - (piece_move.from_pos.file : Int)
          let rook_from : BoardPosition :=
            ⟨piece_move.from_pos.rank,
             (intClamp ((piece_move.from_pos.file : Int) + file_move_direction * 8) 1 7).toNat⟩
          let rook_to_file : Int := (piece_move.to_pos.file : Int) - file_move_direction.sign
          if rook_to_file < 0 ∨ 8 ≤ rook_to_file then none
          else
            let rook_to : BoardPosition := ⟨piece_move.to_pos.rank, rook_to_file.toNat⟩
            match movePiece b1 rook_from rook_to with
            | none => none
            | some b2 =>
              some (b2, [(piece_move.from_pos, piece_move.to_pos), (rook_from, rook_to)])
        else some (b1, [(piece_move.from_pos, piece_move.to_pos)])
      after_castle.map fun moved =>
        match b.active_color with
        | some c =>
          let new_active : Option PieceColor := some c.opposite
          ({ moved.1 with
              active_color := new_active,
              past_moves := b.past_moves ++ [piece_move],
              move_number :=
                if new_active = some PieceColor.White then b.move_number + 1
                else b.move_number,
              castling_rights := b.castling_rights.updateAfterMove piece_move },
           moved.2)
        | none => moved
  else some (b, [])

/-- Rust's `str::split_whitespace`: maximal runs of non-space
characters (the FEN fields are separated by single spaces). -/
def splitWSAux : List Char → List Char → List (List Char)
  | [], acc => if acc.isEmpty then [] else [acc.reverse]
  | c :: rest, acc =>
    if c = ' ' then
      if acc.isEmpty then splitWSAux rest []
      else acc.reverse :: splitWSAux rest []
    else splitWSAux rest (c :: acc)

/-- Split a character list on whitespace. -/
def splitWS (cs : List Char) : List (List Char) := splitWSAux cs []

/-- Rust's `str::split` on a separator character, keeping empty
sections. -/
def splitCharAux (sep : Char) : List Char → List Char → List (List Char)
  | [], acc => [acc.reverse]
  | c :: rest, acc =>
    if c = sep then acc.reverse :: splitCharAux sep rest []
    else splitCharAux sep rest (c :: acc)

/-- Split a character list on a separator, as `split('/')` does. -/
def splitOnChar (sep : Char) (cs : List Char) : List (List Char) := splitCharAux sep cs []

/-- Rust's `char::is_digit(9)`: the characters 0 through 8. -/
def isDigit9 (c : Char) : Bool := '0' ≤ c ∧ c ≤ '8'

/-- The numeric value of a digit character. -/
def digitVal (c : Char) : Nat := c.toNat - '0'.toNat

/-- The symbol-to-piece mapping of the FEN placement walk: uppercase
is White, and the letter selects the piece kind; `none` models the
"Unrecognised symbol in FEN" panic. -/
def fenSymbolPiece (symbol : Char) : Option (PieceColor × PieceType) :=
  let piece_color := if symbol.isUpper then PieceColor.White else PieceColor.Black
  match symbol.toUpper with
  | 'P' => some (piece_color, PieceType.Pawn)
  | 'N' => some (piece_color, PieceType.Knight)
  | 'B' => some (piece_color, PieceType.Bishop)
  | 'R' => some (piece_color, PieceType.Rook)
  | 'Q' => some (piece_color, PieceType.Queen)
  | 'K' => some (piece_color, PieceType.King)
  | _ => none

/-- The post-symbol cursor advance of the placement walk: once the
file reaches 8 the cursor wraps to the next rank. -/
def fenAdvance (rank file : Nat) : Nat × Nat :=
  if file ≥ 8 then (rank + 1, 0) else (rank, file)

/-- One character of the FEN placement walk shared by
`Fen::from_string` and `ChessBoard::from_fen`: a digit skips files, a
letter places a freshly created piece; `none` models the panics on an
unknown symbol or an out-of-range `BoardPosition`. -/
def stepFenChar (st : Nat × Nat × List (List (Option Piece))) (symbol : Char) :
    Option (Nat × Nat × List (List (Option Piece))) :=
  let rank := st.1
  let file := st.2.1
  let g := st.2.2
  if isDigit9 symbol then
    let cursor := fenAdvance rank (file + digitVal symbol)
    some (cursor.1, cursor.2, g)
  else match fenSymbolPiece symbol with
  | none => none
  | some (piece_color, piece_type) =>
    if rank ≥ 8 ∨ file ≥ 8 then none
    else
      let pos : BoardPosition := ⟨rank, file⟩
      let g2 := setAt g pos (some (newPiece piece_color piece_type pos))
      let cursor := fenAdvance rank (file + 1)
      some (cursor.1, cursor.2, g2)

/-- The placement walk over the slash-separated ranks of FEN field 0,
threading the rank and file cursor across sections exactly as the
source's nested loops do. -/
def parsePlacement (cs : List Char) : Option (List (List (Option Piece))) :=
  ((splitOnChar '/' cs).foldlM
      (fun st (sec : List Char) => sec.foldlM stepFenChar st)
      (0, 0, emptyBoard.grid)).map
    fun st => st.2.2

/-- The integer fields of the FEN, as `parse::<i32>` on a digit
string; `none` models the unwrap panic. -/
def parseNatChars (cs : List Char) : Option Nat :=
  if cs ≠ [] ∧ cs.all Char.isDigit then
    some (cs.foldl (fun n c => 10 * n + digitVal c) 0)
  else none

/-- Validation of FEN field 3 (the en passant target) performed by
`Fen::from_string` before the board is built: a dash, or a file letter
a through h followed by a rank digit 0 through 7. -/
def epFieldOk (cs : List Char) : Bool :=
  match cs with
  | ['-'] => true
  | fc :: rc :: _ => ('a' ≤ fc ∧ fc ≤ 'h') ∧ ('0' ≤ rc ∧ rc ≤ '7')
  | _ => false

/-- `Fen::from_string` followed by `ChessBoard::from_fen`: field 0
places the pieces, field 1 is the active color (anything but `w` or
`b` is fatal), field 2 the castling rights by letter containment,
field 5 the move number; fields 3 and 4 are validated by the parser
but not stored on the board. -/
def boardFromFen (cs : List Char) : Option Board :=
  let fields := splitWS cs
  match parsePlacement (fields.getD 0 []) with
  | none => none
  | some g =>
    match fields.getD 1 [] with
    | ['w'] => boardFromFenRest g PieceColor.White fields
    | ['b'] => boardFromFenRest g PieceColor.Black fields
    | _ => none
where
  /-- The remaining fields of the construction. -/
  boardFromFenRest (g : List (List (Option Piece))) (ac : PieceColor)
      (fields : List (List Char)) : Option Board :=
    if epFieldOk (fields.getD 3 []) then
      match parseNatChars (fields.getD 4 []), parseNatChars (fields.getD 5 []) with
      | some _, some move_number =>
        some { emptyBoard with
                grid := g,
                active_color := some ac,
                move_number := (move_number : Int),
                castling_rights := CastlingRights.fromFenChars (fields.getD 2 []) }
      | _, _ => none
    else none

/-- The body of the `game_end_checker` system for one completed move:
when the active color has no legal move the game ends in checkmate or
stalemate and the active color is cleared. -/
def gameEndCheck (b : Board) : Board :=
  if b.active_color.isSome ∧ (getValidMoves b b.active_color true).isEmpty then
    match b.active_color with
    | some c =>
      if inCheck b c then
        { b with game_end_status := some GameEndStatus.Checkmate,
                 winner := some c.opposite,
                 active_color := none }
      else
        { b with game_end_status := some GameEndStatus.Stalemate,
                 active_color := none }
    | none => b
  else b

/-- The rights pair of one color, as the `rights` reference selected
inside `CastlingRights`. -/
def rightsOf (cr : CastlingRights) (color : PieceColor) : Bool × Bool :=
  match color with
  | .White => cr.white
  | .Black => cr.black

/-- Pointwise implication of castling-rights flags: every flag set on
the left is set on the right. -/
def crLe (a b : CastlingRights) : Prop :=
  (a.white.1 = true → b.white.1 = true)
  ∧ (a.white.2 = true → b.white.2 = true)
  ∧ (a.black.1 = true → b.black.1 = true)
  ∧ (a.black.2 = true → b.black.2 = true)

/-- Well-formedness of a grid: eight ranks of eight cells, the shape
every board built by the FEN seeding path has. -/
def gridWF (g : List (List (Option Piece))) : Prop :=
  g.length = 8 ∧ ∀ row ∈ g, row.length = 8

instance (g : List (List (Option Piece))) : Decidable (gridWF g) := by
  unfold gridWF
  infer_instance

/-- A board with a lone white king on its home square. -/
def bMini : Board :=
  { emptyBoard with
    active_color := some PieceColor.White,
    grid := [emptyRank, emptyRank, emptyRank, emptyRank, emptyRank, emptyRank, emptyRank,
             emptyRank.set 4 (some (newPiece .White .King ⟨7, 4⟩))] }

/-- A plain one-step king move on `bMini`. -/
def mKstep : Move := ⟨⟨7, 4⟩, ⟨7, 5⟩, .King, .White, false, false⟩

/-- A checkmate position: Black king cornered at rank 0 file 0 by the
protected White queen one diagonal step away, Black to move. -/
def bMate : Board :=
  { emptyBoard with
    active_color := some PieceColor.Black,
    grid := [emptyRank.set 0 (some (newPiece .Black .King ⟨0, 0⟩)),
             emptyRank.set 1 (some (newPiece .White .Queen ⟨1, 1⟩)),
             emptyRank.set 1 (some (newPiece .White .King ⟨2, 1⟩)),
             emptyRank, emptyRank, emptyRank, emptyRank, emptyRank] }

/-- A queenside castling position: White king on its home square,
White rook in the rank 7 file 0 corner, queenside rights only. -/
def bQCastle : Board :=
  { emptyBoard with
    active_color := some PieceColor.White,
    castling_rights := { white := (false, true), black := (false, false) },
    grid := [emptyRank, emptyRank, emptyRank, emptyRank, emptyRank, emptyRank, emptyRank,
             (emptyRank.set 0 (some (newPiece .White .Rook ⟨7, 0⟩))).set 4
               (some (newPiece .White .King ⟨7, 4⟩))] }

/-- The same queenside position with a White knight still standing on
rank 7 file 1, between the king and the rook's corner. -/
def bQCastleB1 : Board :=
  { bQCastle with
    grid := [emptyRank, emptyRank, emptyRank, emptyRank, emptyRank, emptyRank, emptyRank,
             ((emptyRank.set 0 (some (newPiece .White .Rook ⟨7, 0⟩))).set 1
               (some (newPiece .White .Knight ⟨7, 1⟩))).set 4
               (some (newPiece .White .King ⟨7, 4⟩))] }

/-- A kingside castling position: White king home, White rook in the
rank 7 file 7 corner, kingside rights only. -/
def bKCastle : Board :=
  { emptyBoard with
    active_color := some PieceColor.White,
    castling_rights := { white := (true, false), black := (false, false) },
    grid := [emptyRank, emptyRank, emptyRank, emptyRank, emptyRank, emptyRank, emptyRank,
             (emptyRank.set 7 (some (newPiece .White .Rook ⟨7, 7⟩))).set 4
               (some (newPiece .White .King ⟨7, 4⟩))] }

/-- The queenside castle move of the White king. -/
def mQ : Move := ⟨⟨7, 4⟩, ⟨7, 2⟩, .King, .White, false, true⟩

/-- The kingside castle move of the White king. -/
def mK : Move := ⟨⟨7, 4⟩, ⟨7, 6⟩, .King, .White, false, true⟩

/-- A board holding a single black rook and no king at all. -/
def bKingless : Board :=
  { emptyBoard with
    grid := [emptyRank, emptyRank,
             emptyRank.set 0 (some (newPiece .Black .Rook ⟨2, 0⟩)),
             emptyRank, emptyRank, emptyRank, emptyRank, emptyRank] }

/-- A board holding a single white rook in the rank 0 file 0 corner. -/
def bC8 : Board :=
  { emptyBoard with
    grid := [emptyRank.set 0 (some (newPiece .White .Rook ⟨0, 0⟩)),
             emptyRank, emptyRank, emptyRank, emptyRank, emptyRank, emptyRank, emptyRank] }

/-- With `check_for_check = false` both trailing clauses of
`valid_move` are vacuous and only the first five clauses remain. -/
theorem validMove_no_check (b : Board) (piece_move : Move) (active_color : Option PieceColor) :
    validMove b piece_move active_color false = validMoveCore b piece_move active_color := by
  cases active_color <;> simp [validMove]

/-- `get_valid_moves` with `check_for_check = false` is the filter by
the first five clauses, the list `in_check` scans. -/
theorem getValidMoves_no_check (b : Board) (active_color : Option PieceColor) :
    getValidMoves b active_color false = getValidMovesNC b active_color := by
  unfold getValidMoves getValidMovesNC
  apply List.filter_congr
  intro piece_move _
  rw [validMove_no_check]

/-- Without an active color `valid_move` rejects everything: its
third clause compares the mover's color against a vacuous `None`. -/
theorem validMove_no_active (b : Board) (piece_move : Move) (check_for_check : Bool) :
    validMove b piece_move none check_for_check = false := by
  unfold validMove validMoveCore
  split
  · rfl
  · cases pieceAt b piece_move.from_pos <;> simp

/-- C1: a move accepted by `valid_move` with `check_for_check = true`
for color `c` never leaves `c` in check: applying `move_piece` on the
move's endpoints succeeds and yields a board on which `in_check c` is
false, because the acceptance conjunction contains exactly that
post-move simulation. -/
theorem accepted_move_never_leaves_mover_in_check
    (b : Board) (c : PieceColor) (piece_move : Move)
    (h : validMove b piece_move (some c) true = true) :
    ∃ b2, movePiece b piece_move.from_pos piece_move.to_pos = some b2
      ∧ inCheck b2 c = false := by
  unfold validMove at h
  rw [Bool.and_eq_true] at h
  have h2 := h.2
  simp only [Bool.not_true, Bool.false_or] at h2
  rw [Bool.and_eq_true] at h2
  have hsim := h2.1
  unfold simulationOk at hsim
  cases hmp : movePiece b piece_move.from_pos piece_move.to_pos with
  | none => rw [hmp] at hsim; cases hsim
  | some tb =>
    rw [hmp] at hsim
    exact ⟨tb, rfl, by simpa using hsim⟩

/-- Witness for C1 at a concrete input: the lone-king step on `bMini`
is accepted and the successor board is not in check. -/
theorem accepted_move_never_leaves_mover_in_check_witness :
    validMove bMini mKstep (some PieceColor.White) true = true
    ∧ ∃ b2, movePiece bMini mKstep.from_pos mKstep.to_pos = some b2
        ∧ inCheck b2 PieceColor.White = false :=
  ⟨by decide,
   accepted_move_never_leaves_mover_in_check bMini PieceColor.White mKstep (by decide)⟩

/-- C7: a requested move that fails `valid_move` is a silent no-op:
the `make_move` body returns the board with every field untouched and
an empty event list. -/
theorem rejected_request_is_noop (b : Board) (piece_move : Move)
    (h : validMove b piece_move b.active_color true = false) :
    makeMove b piece_move = some (b, []) := by
  simp [makeMove, h]

/-- Witness for C7 at a concrete input: a rook-shaped king move on
`bMini` is rejected and the request leaves the board unchanged. -/
theorem rejected_request_is_noop_witness :
    validMove bMini ⟨⟨7, 4⟩, ⟨7, 0⟩, .King, .White, false, false⟩ bMini.active_color true = false
    ∧ makeMove bMini ⟨⟨7, 4⟩, ⟨7, 0⟩, .King, .White, false, false⟩ = some (bMini, []) :=
  ⟨by decide, rejected_request_is_noop bMini _ (by decide)⟩

/-- C2: the queenside castle emptiness walk stops at file 1, so a
piece standing on rank 7 file 1 - strictly between the king and the
rook's file 0 corner - does not block the castle: `valid_move`
accepts it, and the orchestration then relocates that piece, not the
rook. -/
theorem queenside_castle_ignores_b_file_occupancy :
    pieceAt bQCastleB1 ⟨7, 1⟩ = some (newPiece .White .Knight ⟨7, 1⟩)
    ∧ validMove bQCastleB1 mQ (some PieceColor.White) true = true
    ∧ (makeMove bQCastleB1 mQ).map
        (fun r => (getPieceType r.1 ⟨7, 3⟩, getPieceType r.1 ⟨7, 0⟩))
      = some (some PieceType.Knight, some PieceType.Rook) := by
  decide

/-- C3: after an accepted queenside castle the rook source square is
computed as file `clamp(4 - 16, 1, 7) = 1`, not the file 0 corner;
that square is empty, so the rook relocation hits the fatal
"No piece at start location." condition and `make_move` dies.  The
kingside path, whose clamp lands on the corner file 7, completes
correctly. -/
theorem queenside_castle_rook_relocation_is_fatal :
    validMove bQCastle mQ (some PieceColor.White) true = true
    ∧ pieceAt bQCastle ⟨7, 0⟩ = some (newPiece .White .Rook ⟨7, 0⟩)
    ∧ pieceAt bQCastle ⟨7, 1⟩ = none
    ∧ makeMove bQCastle mQ = none
    ∧ (makeMove bKCastle mK).map
        (fun r => (getPieceType r.1 ⟨7, 6⟩, getPieceType r.1 ⟨7, 5⟩,
                   pieceAt r.1 ⟨7, 4⟩, pieceAt r.1 ⟨7, 7⟩, r.2))
      = some (some PieceType.King, some PieceType.Rook, none, none,
              [(⟨7, 4⟩, ⟨7, 6⟩), (⟨7, 7⟩, ⟨7, 5⟩)]) :=
  ⟨by decide, by decide, by decide, by decide, by rfl⟩

/-- C4: when the side to move has no legal move, `game_end_checker`
ends the game: in check it records Checkmate with the opponent as
winner, otherwise Stalemate with the winner untouched; either way the
active color becomes `None`, and `valid_move` rejects every move once
the active color is `None`. -/
theorem no_legal_moves_ends_game (b : Board) (c : PieceColor)
    (hactive : b.active_color = some c)
    (hmoves : getValidMoves b (some c) true = []) :
    ((gameEndCheck b).active_color = none
     ∧ (inCheck b c = true →
          (gameEndCheck b).game_end_status = some GameEndStatus.Checkmate
          ∧ (gameEndCheck b).winner = some c.opposite)
     ∧ (inCheck b c = false →
          (gameEndCheck b).game_end_status = some GameEndStatus.Stalemate
          ∧ (gameEndCheck b).winner = b.winner))
    ∧ ∀ (b2 : Board) (piece_move : Move) (check_for_check : Bool),
        validMove b2 piece_move none check_for_check = false := by
  refine ⟨?_, fun b2 piece_move check_for_check =>
    validMove_no_active b2 piece_move check_for_check⟩
  unfold gameEndCheck
  rw [hactive, hmoves]
  simp only [Option.isSome_some, List.isEmpty_nil, and_true, if_true]
  cases hic : inCheck b c <;> simp

/-- Witness for C4 at a concrete input: on the cornered-king board the
game ends in Checkmate with White the winner and no active color. -/
theorem no_legal_moves_ends_game_witness :
    (gameEndCheck bMate).active_color = none
    ∧ (gameEndCheck bMate).game_end_status = some GameEndStatus.Checkmate
    ∧ (gameEndCheck bMate).winner = some PieceColor.White := by
  have h := no_legal_moves_ends_game bMate PieceColor.Black rfl (by decide)
  exact ⟨h.1.1, (h.1.2.1 (by decide)).1, (h.1.2.1 (by decide)).2⟩

/-- Flag implication is reflexive. -/
theorem crLe_refl (cr : CastlingRights) : crLe cr cr :=
  ⟨id, id, id, id⟩

/-- Flag implication is transitive. -/
theorem crLe_trans {a b c : CastlingRights} (h1 : crLe a b) (h2 : crLe b c) : crLe a c :=
  ⟨fun h => h2.1 (h1.1 h), fun h => h2.2.1 (h1.2.1 h),
   fun h => h2.2.2.1 (h1.2.2.1 h), fun h => h2.2.2.2 (h1.2.2.2 h)⟩

/-- One update of the castling rights never raises a flag. -/
theorem updateAfterMove_le (cr : CastlingRights) (m : Move) :
    crLe (cr.updateAfterMove m) cr := by
  cases hc : m.piece_color <;>
    refine ⟨?_, ?_, ?_, ?_⟩ <;>
    simp [CastlingRights.updateAfterMove, hc, updateRightsPair] <;>
    split_ifs <;> simp_all

/-- Any sequence of updates never raises a flag. -/
theorem foldl_updateAfterMove_le (ms : List Move) (cr : CastlingRights) :
    crLe (ms.foldl CastlingRights.updateAfterMove cr) cr := by
  induction ms generalizing cr with
  | nil => exact crLe_refl cr
  | cons m rest ih =>
    rw [List.foldl_cons]
    exact crLe_trans (ih (cr.updateAfterMove m)) (updateAfterMove_le cr m)

/-- C6: `update_after_move` clears both of the mover's rights on a
king move, clears the queenside right on a rook move from file 0 and
the kingside right on a rook move from file 7, and never turns a flag
from false to true; over any sequence of moves the flags are
monotonically one-way. -/
theorem castling_rights_update_spec (cr : CastlingRights) (m : Move) :
    (m.piece_type = PieceType.King →
      rightsOf (cr.updateAfterMove m) m.piece_color = (false, false))
    ∧ (m.piece_type = PieceType.Rook → m.from_pos.file = 0 →
        (rightsOf (cr.updateAfterMove m) m.piece_color).2 = false)
    ∧ (m.piece_type = PieceType.Rook → m.from_pos.file = 7 →
        (rightsOf (cr.updateAfterMove m) m.piece_color).1 = false)
    ∧ crLe (cr.updateAfterMove m) cr
    ∧ ∀ ms : List Move, crLe (ms.foldl CastlingRights.updateAfterMove cr) cr := by
  refine ⟨?_, ?_, ?_, updateAfterMove_le cr m, fun ms => foldl_updateAfterMove_le ms cr⟩
  · intro hk
    cases hc : m.piece_color <;>
      simp [CastlingRights.updateAfterMove, hc, rightsOf, updateRightsPair, hk]
  · intro hr hf
    cases hc : m.piece_color <;>
      simp [CastlingRights.updateAfterMove, hc, rightsOf, updateRightsPair, hr, hf]
  · intro hr hf
    cases hc : m.piece_color <;>
      simp [CastlingRights.updateAfterMove, hc, rightsOf, updateRightsPair, hr, hf]

/-- Full castling rights, the standard game start. -/
def crAll : CastlingRights := ⟨(true, true), (true, true)⟩

/-- A white king move, a white rook move from file 0 and a white rook
move from file 7, for exercising each revocation rule. -/
def mvKq : Move := ⟨⟨7, 4⟩, ⟨6, 4⟩, .King, .White, false, false⟩

/-- A white rook move leaving the file 0 corner. -/
def mvR0 : Move := ⟨⟨7, 0⟩, ⟨5, 0⟩, .Rook, .White, false, false⟩

/-- A white rook move leaving the file 7 corner. -/
def mvR7 : Move := ⟨⟨7, 7⟩, ⟨5, 7⟩, .Rook, .White, false, false⟩

/-- Witness for C6 at concrete inputs: each revocation rule fires on
full rights, and a two-move sequence only lowers flags. -/
theorem castling_rights_update_spec_witness :
    rightsOf (crAll.updateAfterMove mvKq) PieceColor.White = (false, false)
    ∧ (rightsOf (crAll.updateAfterMove mvR0) PieceColor.White).2 = false
    ∧ (rightsOf (crAll.updateAfterMove mvR7) PieceColor.White).1 = false
    ∧ crLe ([mvKq, mvR0].foldl CastlingRights.updateAfterMove crAll) crAll :=
  ⟨(castling_rights_update_spec crAll mvKq).1 rfl,
   (castling_rights_update_spec crAll mvR0).2.1 rfl rfl,
   (castling_rights_update_spec crAll mvR7).2.2.1 rfl rfl,
   (castling_rights_update_spec crAll mvKq).2.2.2.2 [mvKq, mvR0]⟩

/-- Membership in the rank-major square list is exactly being in
range on both axes. -/
theorem mem_allSquares (p : BoardPosition) :
    p ∈ allSquares ↔ p.rank < 8 ∧ p.file < 8 := by
  cases p with
  | mk rank file =>
    constructor
    · intro h
      simp only [allSquares, List.mem_flatMap, List.mem_map, List.mem_range] at h
      obtain ⟨r, hr, f, hf, heq⟩ := h
      cases heq
      exact ⟨hr, hf⟩
    · intro ⟨h1, h2⟩
      simp only [allSquares, List.mem_flatMap, List.mem_map, List.mem_range]
      exact ⟨rank, h1, file, h2, rfl⟩

/-- A scan by `find?` returns the unique element satisfying the
predicate when there is exactly one. -/
theorem find?_eq_of_unique {α : Type} (l : List α) (p : α → Bool) (a : α)
    (hmem : a ∈ l) (hpa : p a = true) (huniq : ∀ x ∈ l, p x = true → x = a) :
    l.find? p = some a := by
  cases hfind : l.find? p with
  | none =>
    exact absurd hpa (by simpa using List.find?_eq_none.mp hfind a hmem)
  | some q =>
    have hq : p q = true := List.find?_some hfind
    have hqmem : q ∈ l := List.mem_of_find?_eq_some hfind
    rw [huniq q hqmem hq]

/-- The king scan of `in_check` lands on the unique king square. -/
theorem kingLocation_eq (b : Board) (c : PieceColor) (loc : BoardPosition)
    (h1 : loc.rank < 8) (h2 : loc.file < 8) (h3 : kingPred b c loc = true)
    (h4 : ∀ p ∈ allSquares, kingPred b c p = true → p = loc) :
    kingLocation b c = loc := by
  unfold kingLocation
  rw [find?_eq_of_unique allSquares (kingPred b c) loc
    ((mem_allSquares loc).mpr ⟨h1, h2⟩) h3 h4]
  rfl

/-- The FEN of the check scenario. -/
def fenC5 : List Char :=
  "rnb1kb1r/pp2pp1p/8/qN1p2N1/4P3/2Pn4/PP1P2PP/1RBQK2R w Kkq - 0 1".toList

/-- C5: on a board whose unique king of color `c` stands on `loc`,
`in_check c` holds exactly when some move of
`get_valid_moves(opposite c, check_for_check = false)` has
destination `loc`; and on the board of the scenario FEN White is in
check while Black is not. -/
theorem in_check_iff_attack_on_king :
    (∀ (b : Board) (c : PieceColor) (loc : BoardPosition),
      loc.rank < 8 → loc.file < 8 → kingPred b c loc = true →
      (∀ p ∈ allSquares, kingPred b c p = true → p = loc) →
      (inCheck b c = true ↔
        ∃ pm ∈ getValidMoves b (some c.opposite) false, pm.to_pos = loc))
    ∧ (boardFromFen fenC5).map
        (fun b => (inCheck b PieceColor.White, inCheck b PieceColor.Black))
      = some (true, false) := by
  constructor
  · intro b c loc h1 h2 h3 h4
    unfold inCheck
    rw [kingLocation_eq b c loc h1 h2 h3 h4, getValidMoves_no_check]
    simp [List.any_eq_true]
  · rfl

/-- Witness for C5 at a concrete input: the iff instantiated on the
lone-king board with its king square. -/
theorem in_check_iff_attack_on_king_witness :
    inCheck bMini PieceColor.White = true ↔
      ∃ pm ∈ getValidMoves bMini (some PieceColor.Black) false,
        pm.to_pos = (⟨7, 4⟩ : BoardPosition) :=
  in_check_iff_attack_on_king.1 bMini PieceColor.White ⟨7, 4⟩
    (by decide) (by decide) (by decide) (by decide)

/-- C10: on a board with no king of color `c` the scan of `in_check`
silently defaults the king square to rank 0, file 0, so the verdict
is exactly whether some opponent move targets that corner. -/
theorem kingless_in_check_targets_corner (b : Board) (c : PieceColor)
    (h : ∀ p ∈ allSquares, kingPred b c p = false) :
    inCheck b c = true ↔
      ∃ pm ∈ getValidMoves b (some c.opposite) false,
        pm.to_pos = (⟨0, 0⟩ : BoardPosition) := by
  have hn : allSquares.find? (kingPred b c) = none :=
    List.find?_eq_none.mpr fun x hx => by simp [h x hx]
  unfold inCheck kingLocation
  rw [hn, getValidMoves_no_check]
  simp [List.any_eq_true]

/-- Witness for C10 at a concrete input: the kingless rook board,
where the rook does attack the corner and `in_check` is true. -/
theorem kingless_in_check_targets_corner_witness :
    (inCheck bKingless PieceColor.White = true ↔
      ∃ pm ∈ getValidMoves bKingless (some PieceColor.Black) false,
        pm.to_pos = (⟨0, 0⟩ : BoardPosition))
    ∧ inCheck bKingless PieceColor.White = true :=
  ⟨kingless_in_check_targets_corner bKingless PieceColor.White (by decide), by decide⟩

/-- Setting then reading the same index of a list. -/
theorem getD_set_self {α : Type} (l : List α) (n : Nat) (a d : α) (h : n < l.length) :
    (l.set n a).getD n d = a := by
  rw [List.getD_eq_getElem?_getD, List.getElem?_set_eq_of_lt a h]
  rfl

/-- Setting one index of a list leaves the others unchanged. -/
theorem getD_set_ne {α : Type} (l : List α) (n m : Nat) (a d : α) (h : n ≠ m) :
    (l.set n a).getD m d = l.getD m d := by
  rw [List.getD_eq_getElem?_getD, List.getElem?_set_ne h, ← List.getD_eq_getElem?_getD]

/-- A cell write preserves the 8 by 8 grid shape. -/
theorem gridWF_setAt (g : List (List (Option Piece))) (pos : BoardPosition)
    (v : Option Piece) (hwf : gridWF g) (hr : pos.rank < 8) :
    gridWF (setAt g pos v) := by
  have hlen : pos.rank < g.length := by rw [hwf.1]; exact hr
  constructor
  · rw [setAt, List.length_set]; exact hwf.1
  · intro row hrow
    rcases List.mem_or_eq_of_mem_set hrow with hmem | heq
    · exact hwf.2 row hmem
    · rw [heq, List.length_set, List.getD_eq_getElem _ _ hlen]
      exact hwf.2 _ (List.getElem_mem hlen)

/-- Reading any square of a grid after one cell write: the written
cell holds the new value, every other square is unchanged. -/
theorem getD2_setAt (g : List (List (Option Piece))) (pos q : BoardPosition)
    (v : Option Piece) (hwf : gridWF g) (hr : pos.rank < 8) (hf : pos.file < 8) :
    ((setAt g pos v).getD q.rank []).getD q.file none
      = if q = pos then v else (g.getD q.rank []).getD q.file none := by
  have hlen : pos.rank < g.length := by rw [hwf.1]; exact hr
  have hrow : pos.file < (g.getD pos.rank []).length := by
    rw [List.getD_eq_getElem _ _ hlen]
    rw [hwf.2 _ (List.getElem_mem hlen)]
    exact hf
  by_cases hq : q = pos
  · subst hq
    rw [if_pos rfl]
    unfold setAt
    rw [getD_set_self _ _ _ _ (by rw [hwf.1]; exact hr)]
    exact getD_set_self _ _ _ _ hrow
  · rw [if_neg hq]
    unfold setAt
    by_cases hrk : q.rank = pos.rank
    · have hfile : pos.file ≠ q.file := by
        intro hff
        exact hq (by cases q; cases pos; simp_all)
      rw [hrk, getD_set_self _ _ _ _ (by rw [hwf.1]; exact hr)]
      exact getD_set_ne _ _ _ _ _ hfile
    · rw [getD_set_ne _ pos.rank q.rank _ _ fun hc => hrk hc.symm]

/-- Reading a square of a board whose grid was replaced. -/
theorem pieceAt_update (b : Board) (g : List (List (Option Piece))) (q : BoardPosition) :
    pieceAt { b with grid := g } q = (g.getD q.rank []).getD q.file none := rfl

/-- C8 (amended): `move_piece` fails fatally exactly when the source
square is empty, and for distinct in-range squares it relocates the
occupant (repositioned, moved flag latched) onto the destination,
overwrites the destination's former occupant, clears the source and
touches nothing else; when source and destination coincide the cell
ends empty instead, the piece being lost. -/
theorem move_piece_semantics (b : Board) (from_pos to_pos : BoardPosition)
    (hwf : gridWF b.grid) (hfr : from_pos.rank < 8) (hff : from_pos.file < 8)
    (htr : to_pos.rank < 8) (htf : to_pos.file < 8) (hne : from_pos ≠ to_pos) :
    (movePiece b from_pos to_pos = none ↔ pieceAt b from_pos = none)
    ∧ ∀ p, pieceAt b from_pos = some p →
        ∃ b2, movePiece b from_pos to_pos = some b2
          ∧ pieceAt b2 to_pos = some { p with position := to_pos, moved := true }
          ∧ pieceAt b2 from_pos = none
          ∧ ∀ q : BoardPosition, q ≠ from_pos → q ≠ to_pos →
              pieceAt b2 q = pieceAt b q := by
  constructor
  · cases h : pieceAt b from_pos <;> simp [movePiece, h]
  · intro p hp
    have hwf1 : gridWF (setAt b.grid to_pos (some { p with position := to_pos, moved := true })) :=
      gridWF_setAt b.grid to_pos _ hwf htr
    refine ⟨{ b with grid := setAt (setAt b.grid to_pos
        (some { p with position := to_pos, moved := true })) from_pos none },
      by simp [movePiece, hp], ?_, ?_, ?_⟩
    · rw [pieceAt_update, getD2_setAt _ from_pos to_pos _ hwf1 hfr hff,
        if_neg fun hc => hne hc.symm,
        getD2_setAt b.grid to_pos to_pos _ hwf htr htf, if_pos rfl]
    · rw [pieceAt_update, getD2_setAt _ from_pos from_pos _ hwf1 hfr hff, if_pos rfl]
    · intro q hq1 hq2
      rw [pieceAt_update, getD2_setAt _ from_pos q _ hwf1 hfr hff, if_neg hq1,
        getD2_setAt b.grid to_pos q _ hwf htr htf, if_neg hq2]
      rfl

/-- Counterexample to C8 as stated: on the corner-rook board,
`move_piece` from a square to itself does not fail - the source is
occupied - yet afterwards the destination square is empty rather than
holding the relocated piece: the destination write is undone by the
source clear on the same cell. -/
theorem move_piece_same_square_deletes_piece :
    (pieceAt bC8 ⟨0, 0⟩).isSome = true
    ∧ (movePiece bC8 ⟨0, 0⟩ ⟨0, 0⟩).map (fun b2 => pieceAt b2 ⟨0, 0⟩) = some none :=
  ⟨by decide, by rfl⟩

/-- Witness for C8 at a concrete input: relocating the corner rook to
an empty distinct square behaves as the amended claim states. -/
theorem move_piece_semantics_witness :
    pieceAt bC8 ⟨0, 0⟩ = some (newPiece .White .Rook ⟨0, 0⟩)
    ∧ ∃ b2, movePiece bC8 ⟨0, 0⟩ ⟨3, 3⟩ = some b2
        ∧ pieceAt b2 ⟨3, 3⟩
            = some { newPiece .White .Rook ⟨0, 0⟩ with position := ⟨3, 3⟩, moved := true }
        ∧ pieceAt b2 ⟨0, 0⟩ = none
        ∧ ∀ q : BoardPosition, q ≠ ⟨0, 0⟩ → q ≠ ⟨3, 3⟩ →
            pieceAt b2 q = pieceAt bC8 q :=
  ⟨by decide,
   (move_piece_semantics bC8 ⟨0, 0⟩ ⟨3, 3⟩ (by decide) (by decide) (by decide)
      (by decide) (by decide) (by decide)).2 _ (by decide)⟩

/-- The standard starting position FEN. -/
def startFen : List Char :=
  "rnbqkbnr/pppppppp/8/8/8/8/PPPPPPPP/RNBQKBNR w KQkq - 0 1".toList

/-- The back-rank piece order of the starting position. -/
def backRankTypes : List PieceType :=
  [.Rook, .Knight, .Bishop, .Queen, .King, .Bishop, .Knight, .Rook]

/-- A fully populated back rank of one color. -/
def homeRank (color : PieceColor) (rank : Nat) : List (Option Piece) :=
  (backRankTypes.zip (List.range 8)).map fun tf => some (newPiece color tf.1 ⟨rank, tf.2⟩)

/-- A fully populated pawn rank of one color. -/
def pawnRank (color : PieceColor) (rank : Nat) : List (Option Piece) :=
  (List.range 8).map fun file => some (newPiece color .Pawn ⟨rank, file⟩)

/-- The board the starting FEN should seed: Black on ranks 0 and 1,
White on ranks 6 and 7, White to move, move number 1, full rights. -/
def startBoardExpected : Board :=
  { emptyBoard with
    grid := [homeRank .Black 0, pawnRank .Black 1, emptyRank, emptyRank,
             emptyRank, emptyRank, pawnRank .White 6, homeRank .White 7],
    active_color := some PieceColor.White,
    move_number := 1,
    castling_rights := crAll }

/-- The number of pieces of a color on the board. -/
def countColor (b : Board) (c : PieceColor) : Nat :=
  ((allSquares.filterMap fun pos => pieceAt b pos).filter fun piece => piece.color = c).length

/-- C9: parsing the starting FEN and building the board yields exactly
the standard start - pawns on ranks 1 and 6, the
Rook Knight Bishop Queen King Bishop Knight Rook back ranks on ranks
0 and 7, every other square empty, White to move, move number 1, all
four castling rights - with 16 pieces of each color. -/
theorem fen_start_position_seeds_board :
    boardFromFen startFen = some startBoardExpected
    ∧ (boardFromFen startFen).map
        (fun b => (countColor b PieceColor.White, countColor b PieceColor.Black))
      = some (16, 16) :=
  ⟨by rfl, by rfl⟩

end Chess
